import Mathlib

/-!
Shallow embedding of the failure-attribution and scoring core of the
tech_performance repository (file app/perf_logic.py), together with proofs
checking the natural-language specification against it.

Events are rows of a tabular log; the pipeline normalizes them, infers a
linear station order, walks each unit to attribute failures to repair
attempts, and aggregates per-technician metrics.  Python floats are
modelled as rationals, Python round as round-half-to-even on rationals,
and pandas dataframes as lists of records.
-/

attribute [local semireducible] Rat.mul Rat.inv Rat.add Rat.sub

namespace TechPerf

/-- One row of the event log: columns sn, station, status, error_code, badge. -/
structure Row where
  sn : String
  station : String
  status : String
  error_code : String
  badge : String
deriving DecidableEq, Repr

/-- Derived failure record (report_models.FailureEvent). -/
structure FailureEvent where
  sn : String
  fail_index : Nat
  station : String
  error_code : String
  fail_rank : Int
deriving DecidableEq, Repr

/-- Derived repair-attempt record (report_models.RepairAttempt). -/
structure RepairAttempt where
  technician_badge : String
  failure : FailureEvent
  swap_index : Nat
deriving DecidableEq, Repr

/-- A station-rank map, as an association list (Python dict preserving
insertion order). -/
abbrev StationOrder := List (String × Int)

/-- One row of the output metrics dataframe. -/
structure MetricsRow where
  badge : String
  intentos : Nat
  exitos : Nat
  ineficiencias : Int
  eficiencia_pct : ℚ
  carga_relativa : ℚ
  score : ℚ
deriving DecidableEq, Repr

/-- The run metadata returned next to the scorecard. -/
structure Meta where
  fallas_totales : Nat
  tecnicos_activos : Nat
  carga_esperada : ℚ
  station_order : StationOrder
deriving DecidableEq, Repr

/-- pandas str.strip: drop surrounding whitespace (character-list level
model of String.trim). -/
def pyStrip (s : String) : String :=
  ⟨((s.data.dropWhile Char.isWhitespace).reverse.dropWhile Char.isWhitespace).reverse⟩

/-- pandas str.lower (character-list level model of String.toLower). -/
def pyLower (s : String) : String := ⟨s.data.map Char.toLower⟩

/-- Embeds perf_logic._normalize_frame on a single row: station and status are
stripped and lower-cased, error_code likewise; sn and badge are kept as the
strings they already are. -/
def normalizeRow (r : Row) : Row :=
  { r with
    station := pyLower (pyStrip r.station)
    status := pyLower (pyStrip r.status)
    error_code := pyLower (pyStrip r.error_code) }

/-- Embeds perf_logic._normalize_frame. -/
def normalize_frame (rows : List Row) : List Row := rows.map normalizeRow

/-- The accumulator step used for both the seen-station list of
perf_logic._infer_station_order and the insertion-order keys of the Python
dicts: append an element if it is not already present. -/
def addNew (acc : List String) (s : String) : List String :=
  if s ∈ acc then acc else acc ++ [s]

/-- Distinct elements of a list in first-occurrence order (Python dict key
insertion order). -/
def dedupFold (l : List String) : List String := l.foldl addNew []

/-- The seen list built by perf_logic._infer_station_order: distinct stations
in first-occurrence order, skipping the repair station swap. -/
def seenFold (stations : List String) : List String :=
  stations.foldl (fun acc st => if st = "swap" then acc else addNew acc st) []

/-- Association list assigning consecutive integer ranks starting at i
(the dict comprehension of perf_logic._infer_station_order). -/
def ranksFrom (i : Nat) : List String → List (String × Int)
  | [] => []
  | st :: rest => (st, (i : Int)) :: ranksFrom (i + 1) rest

/-- Embeds perf_logic._infer_station_order: flow stations get ranks 1..N in
first-occurrence order, swap gets rank 0 when it occurs at all. -/
def infer_station_order (rows : List Row) : StationOrder :=
  ranksFrom 1 (seenFold (rows.map (·.station))) ++
    (if (rows.map (·.station)).contains "swap" then [("swap", (0 : Int))] else [])

/-- Dict lookup in a station order map. -/
def lookupRank (so : StationOrder) (st : String) : Option Int :=
  (so.find? (fun p => p.1 = st)).map (·.2)

/-- station_order.get(st, -1): lookup with default rank -1. -/
def rankOfD (so : StationOrder) (st : String) : Int :=
  match lookupRank so st with
  | some r => r
  | none => -1

/-- max((r for r in station_order.values() if r > 0), default=0). -/
def maxFlowRank (so : StationOrder) : Int :=
  ((so.map Prod.snd).filter (fun r => 0 < r)).foldl max 0

/-- The body of the while loop of perf_logic._iter_failures_for_sn: scan rows
from index i with explicit fuel (the loop runs while i < len(rows), one row
per iteration), yielding a FailureEvent for every fail at a positive-rank
station. -/
def iterFailuresAux (sn : String) (rows : List Row) (so : StationOrder) :
    Nat → Nat → List FailureEvent
  | 0, _ => []
  | fuel + 1, i =>
    if h : i < rows.length then
      let r := rows[i]
      if r.status = "fail" ∧ 0 < rankOfD so r.station then
        ⟨sn, i, r.station, r.error_code, rankOfD so r.station⟩ ::
          iterFailuresAux sn rows so fuel (i + 1)
      else iterFailuresAux sn rows so fuel (i + 1)
    else []

/-- Embeds perf_logic._iter_failures_for_sn (the generator, materialized as
the list of all failures it yields). -/
def iter_failures_for_sn (sn : String) (rows : List Row) (so : StationOrder) :
    List FailureEvent :=
  iterFailuresAux sn rows so rows.length 0

/-- The while loop of perf_logic._find_repair_attempt: find the first row with
station swap at index at least j, returning its index and the row. -/
def findSwapRow (rows : List Row) : Nat → Nat → Option (Nat × Row)
  | 0, _ => none
  | fuel + 1, j =>
    if h : j < rows.length then
      if (rows[j]).station = "swap" then some (j, rows[j])
      else findSwapRow rows fuel (j + 1)
    else none

/-- Embeds perf_logic._find_repair_attempt: the next swap row after the
failure, provided it exists and carries a non-empty badge. -/
def find_repair_attempt (failure : FailureEvent) (rows : List Row) :
    Option RepairAttempt :=
  match findSwapRow rows (rows.length - (failure.fail_index + 1)) (failure.fail_index + 1) with
  | none => none
  | some (j, r) =>
    if r.badge = "" then none
    else some ⟨r.badge, failure, j⟩

/-- The while loop of perf_logic._evaluate_repair_attempt, scanning from
index k with mutable state (success, max_pass_rank) and explicit fuel. -/
def evalGo (rows : List Row) (stFail origErr : String) (failRank maxFlow : Int)
    (so : StationOrder) : Nat → Nat → Bool → Int → Bool
  | 0, _, success, _ => success
  | fuel + 1, k, success, maxPass =>
    if h : k < rows.length then
      let r := rows[k]
      if r.station = "swap" then success
      else if r.status = "fail" then
        let sameCode := origErr ≠ "" ∧ r.error_code ≠ "" ∧ r.error_code = origErr
        if r.station = stFail ∧ sameCode then false else true
      else if r.status = "pass" then
        let rank2 := rankOfD so r.station
        let maxPass' := if maxPass < rank2 then rank2 else maxPass
        let success' := if failRank ≤ maxPass' then true else success
        if maxPass' = maxFlow then success'
        else evalGo rows stFail origErr failRank maxFlow so fuel (k + 1) success' maxPass'
      else evalGo rows stFail origErr failRank maxFlow so fuel (k + 1) success maxPass
    else success

/-- Embeds perf_logic._evaluate_repair_attempt. -/
def evaluate_repair_attempt (attempt : RepairAttempt) (rows : List Row)
    (so : StationOrder) (maxFlow : Int) : Bool :=
  evalGo rows attempt.failure.station attempt.failure.error_code
    attempt.failure.fail_rank maxFlow so
    (rows.length - (attempt.swap_index + 1)) (attempt.swap_index + 1) false (-1)

/-- Round half to even at the last integer place (the model of Python round
on our rational model of floats). -/
def halfEven (q : ℚ) : ℤ :=
  let n := ⌊q⌋
  let frac := q - n
  if frac < 1 / 2 then n
  else if 1 / 2 < frac then n + 1
  else if n % 2 = 0 then n else n + 1

/-- round(q, nd) for nd decimal places. -/
def pround (q : ℚ) (nd : Nat) : ℚ :=
  (halfEven (q * (10 ^ nd : ℕ)) : ℚ) / ((10 ^ nd : ℕ) : ℚ)

/-- The sort relation of the scorecard: a comes no later than b when the
triple (score, exitos, intentos) of a is lexicographically at least that
of b (pandas sort_values by the triple, all descending). -/
def rowBefore (a b : MetricsRow) : Bool :=
  decide (b.score < a.score ∨ (b.score = a.score ∧
    (b.exitos < a.exitos ∨ (b.exitos = a.exitos ∧ b.intentos ≤ a.intentos))))

/-- rowBefore as a decidable relation, for use with insertionSort. -/
def rowBeforeR : MetricsRow → MetricsRow → Prop := fun a b => rowBefore a b = true

instance : DecidableRel rowBeforeR := fun a b => instDecidableEqBool (rowBefore a b) true

/-- The scorecard row built for one badge by the loop body of
perf_logic._build_metrics_dataframe, given the flattened records and the
expected load. -/
def metricsRowFor (records : List (String × Bool)) (carga : ℚ) (b : String) :
    MetricsRow :=
  let it := records.countP (fun r => r.1 == b)
  let ex := records.countP (fun r => r.1 == b && r.2)
  let inef : Int := (it : Int) - (ex : Int)
  let ef : ℚ := if it = 0 then 0 else pround ((ex : ℚ) / (it : ℚ) * 100) 2
  let cr : ℚ := if carga = 0 then 0 else pround ((it : ℚ) / carga) 3
  let sc : ℚ := pround ((ex : ℚ) + (1 / 2) * cr) 3
  ⟨b, it, ex, inef, ef, cr, sc⟩

/-- The expected load per technician of perf_logic._build_metrics_dataframe. -/
def cargaEsperada (total_failures tecnicos : Nat) : ℚ :=
  if tecnicos = 0 then 0 else (total_failures : ℚ) / (tecnicos : ℚ)

/-- Embeds perf_logic._build_metrics_dataframe: aggregate the flattened
(badge, success) attempt records into the scorecard and the metadata (whose
station_order field is filled in later by the caller, as in the source). -/
def build_metrics_dataframe (records : List (String × Bool)) (total_failures : Nat) :
    List MetricsRow × Meta :=
  let keys := dedupFold (records.map Prod.fst)
  let carga := cargaEsperada total_failures keys.length
  (List.insertionSort rowBeforeR (keys.map (metricsRowFor records carga)),
    ⟨total_failures, keys.length, carga, []⟩)

/-- Lexicographic strict comparison of character lists by code point. -/
def charsLT : List Char → List Char → Bool
  | [], [] => false
  | [], _ :: _ => true
  | _ :: _, [] => false
  | a :: as, b :: bs => if a < b then true else if b < a then false else charsLT as bs

/-- String comparison used to model the pandas sort by sn (lexicographic). -/
def strLE (a b : String) : Bool := !(charsLT b.data a.data)

/-- strLE as a decidable relation, for use with insertionSort. -/
def strLEr : String → String → Prop := fun a b => strLE a b = true

instance : DecidableRel strLEr := fun a b => instDecidableEqBool (strLE a b) true

/-- Group the (already normalized) frame by sn: pandas sorts by (sn, event_id)
with a stable mergesort, where event_id is the original row index, then
groups; so units come in sorted sn order and each unit keeps its rows in
original order. -/
def groupBySn (df : List Row) : List (String × List Row) :=
  (List.insertionSort strLEr (dedupFold (df.map (·.sn)))).map
    (fun k => (k, df.filter (fun r => r.sn = k)))

/-- If the caller supplies a station order it is used verbatim, otherwise it
is inferred from the normalized frame (perf_logic._prepare_dataframe). -/
def resolveOrder (df : List Row) : Option StationOrder → StationOrder
  | some so => so
  | none => infer_station_order df

/-- The (badge, success) attempt records produced by one unit in
perf_logic.compute_performance_from_df: for each detected failure, the
attributed attempt (if any) paired with its evaluated outcome. -/
def unitRecords (sn : String) (rows : List Row) (so : StationOrder) (maxFlow : Int) :
    List (String × Bool) :=
  (iter_failures_for_sn sn rows so).filterMap (fun f =>
    match find_repair_attempt f rows with
    | none => none
    | some a => some (a.technician_badge, evaluate_repair_attempt a rows so maxFlow))

/-- perf_logic.compute_performance_from_df after normalization: resolve the
station order, walk every unit, aggregate, and attach the station order to
the metadata. -/
def computeFromNormalized (df : List Row) (soOpt : Option StationOrder) :
    List MetricsRow × Meta :=
  let so := resolveOrder df soOpt
  let maxFlow := maxFlowRank so
  let groups := groupBySn df
  let records := (groups.map (fun g => unitRecords g.1 g.2 so maxFlow)).flatten
  let total := (groups.map (fun g => (iter_failures_for_sn g.1 g.2 so).length)).sum
  let res := build_metrics_dataframe records total
  (res.1, { res.2 with station_order := so })

/-- Embeds perf_logic.compute_performance_from_df. -/
def compute_performance_from_df (df : List Row) (soOpt : Option StationOrder) :
    List MetricsRow × Meta :=
  computeFromNormalized (normalize_frame df) soOpt

/-- Look a badge up in the scorecard. -/
def findBadge (df : List MetricsRow) (b : String) : Option MetricsRow :=
  df.find? (fun r => r.badge = b)

/-- Sum of the attempts column over the scorecard. -/
def sumAttempts (df : List MetricsRow) : Nat := (df.map (·.intentos)).sum

/-- The canonical five-unit sample fixture (SAMPLE_CSV of
tests/test_perf_logic.py, read with keep_default_na=False so blank cells are
empty strings). -/
def sampleRows : List Row := [
  ⟨"mxq1", "fto", "pass", "", "123"⟩,
  ⟨"mxq1", "runnin", "pass", "", "123"⟩,
  ⟨"mxq1", "test4", "fail", "0-A23", "123"⟩,
  ⟨"mxq1", "swap", "pass", "", "456"⟩,
  ⟨"mxq1", "fto", "pass", "", "456"⟩,
  ⟨"mxq1", "runnin", "pass", "", "456"⟩,
  ⟨"mxq1", "test4", "pass", "", "456"⟩,
  ⟨"mxq1", "disk test", "pass", "", "456"⟩,
  ⟨"mxq1", "crisscross", "pass", "", "456"⟩,
  ⟨"mxq2", "fto", "pass", "", "789"⟩,
  ⟨"mxq2", "runnin", "pass", "", "789"⟩,
  ⟨"mxq2", "test4", "pass", "", "789"⟩,
  ⟨"mxq2", "disk test", "fail", "0-A23", "789"⟩,
  ⟨"mxq2", "swap", "pass", "", "456"⟩,
  ⟨"mxq2", "fto", "pass", "", "456"⟩,
  ⟨"mxq2", "runnin", "fail", "0-A23", "456"⟩,
  ⟨"mxq2", "swap", "pass", "", "987"⟩,
  ⟨"mxq2", "fto", "pass", "", "987"⟩,
  ⟨"mxq2", "runnin", "pass", "", "987"⟩,
  ⟨"mxq2", "test4", "pass", "", "987"⟩,
  ⟨"mxq2", "disk test", "pass", "", "987"⟩,
  ⟨"mxq3", "fto", "pass", "", "111"⟩,
  ⟨"mxq3", "runnin", "fail", "0-A23", "111"⟩,
  ⟨"mxq3", "swap", "pass", "", "987"⟩,
  ⟨"mxq3", "fto", "fail", "0-A23", "987"⟩,
  ⟨"mxq3", "swap", "pass", "", "987"⟩,
  ⟨"mxq3", "fto", "pass", "", "987"⟩,
  ⟨"mxq3", "runnin", "pass", "", "987"⟩,
  ⟨"mxq3", "test4", "fail", "0-A23", "987"⟩,
  ⟨"mxq3", "swap", "pass", "", "333"⟩,
  ⟨"mxq3", "fto", "pass", "", "333"⟩,
  ⟨"mxq3", "runnin", "pass", "", "333"⟩,
  ⟨"mxq3", "test4", "pass", "", "333"⟩,
  ⟨"mxq3", "disk test", "pass", "", "333"⟩,
  ⟨"mxq4", "fto", "fail", "0-A23", "222"⟩,
  ⟨"mxq4", "swap", "pass", "", "555"⟩,
  ⟨"mxq4", "fto", "fail", "0-A23", "555"⟩,
  ⟨"mxq4", "swap", "pass", "", "555"⟩,
  ⟨"mxq4", "fto", "fail", "0-A23", "555"⟩,
  ⟨"mxq4", "swap", "pass", "", "666"⟩,
  ⟨"mxq4", "fto", "pass", "", "666"⟩,
  ⟨"mxq4", "runnin", "pass", "", "666"⟩,
  ⟨"mxq4", "test4", "pass", "", "666"⟩,
  ⟨"mxq4", "disk test", "pass", "", "666"⟩,
  ⟨"mxq5", "fto", "pass", "", "987"⟩,
  ⟨"mxq5", "runnin", "fail", "0-A23", "987"⟩,
  ⟨"mxq5", "swap", "pass", "", "987"⟩,
  ⟨"mxq5", "fto", "pass", "", "987"⟩,
  ⟨"mxq5", "runnin", "pass", "", "987"⟩,
  ⟨"mxq5", "test4", "fail", "0-A23", "987"⟩,
  ⟨"mxq5", "swap", "pass", "", "777"⟩,
  ⟨"mxq5", "fto", "pass", "", "777"⟩,
  ⟨"mxq5", "runnin", "pass", "", "777"⟩,
  ⟨"mxq5", "test4", "pass", "", "777"⟩,
  ⟨"mxq5", "disk test", "pass", "", "777"⟩]

set_option maxRecDepth 40000

/-- C1: on the canonical five-unit sample fixture, with no explicit rank map,
the pipeline returns total_failures = 11, active_technicians = 6,
expected_load = 11/6 (1.833 once rounded to 3 decimals), and a scorecard in
which badge 987 has attempts 4, successes 4, inefficiencies 0; badge 456 has
attempts 2, successes 2, inefficiencies 0; and badge 555 has attempts 2,
successes 0, inefficiencies 2. -/
theorem sample_fixture_metrics :
    (compute_performance_from_df sampleRows none).2.fallas_totales = 11 ∧
    (compute_performance_from_df sampleRows none).2.tecnicos_activos = 6 ∧
    (compute_performance_from_df sampleRows none).2.carga_esperada = 11 / 6 ∧
    pround (11 / 6) 3 = 1833 / 1000 ∧
    (findBadge (compute_performance_from_df sampleRows none).1 "987").map
      (fun r => (r.intentos, r.exitos, r.ineficiencias)) = some (4, 4, 0) ∧
    (findBadge (compute_performance_from_df sampleRows none).1 "456").map
      (fun r => (r.intentos, r.exitos, r.ineficiencias)) = some (2, 2, 0) ∧
    (findBadge (compute_performance_from_df sampleRows none).1 "555").map
      (fun r => (r.intentos, r.exitos, r.ineficiencias)) = some (2, 0, 2) := by
  decide

/-- C8: on an input with zero rows (all required columns present, which the
row type models by construction), the pipeline succeeds and returns an empty
scorecard with total failures 0, active technicians 0 and expected load 0. -/
theorem empty_input_returns_zero_metrics :
    compute_performance_from_df [] none =
      ([], { fallas_totales := 0, tecnicos_activos := 0, carga_esperada := 0,
             station_order := [] }) := by
  decide

/-- The outcome sub-scan as the specification words it, as a structural
recursion over the events after the attributed repair event, carrying the
tentative outcome (defaulting to not-success) and the running maximum flow
rank of passed stations: a recurrence of the same station with the same
non-empty error code is an inefficiency and stops the sub-scan; any other
fail is a success and stops the sub-scan; a pass updates the running maximum,
makes the attempt a success once the maximum reaches the original flow rank,
and stops the sub-scan when the maximum equals the overall maximum flow rank;
a repair-station event or the end of events stops the sub-scan with the
outcome observed so far. -/
def outcomeSpec (stFail origErr : String) (failRank maxFlow : Int)
    (so : StationOrder) : List Row → Bool → Int → Bool
  | [], tentative, _ => tentative
  | e :: rest, tentative, maxPass =>
    if e.station = "swap" then tentative
    else if e.status = "fail" then
      if e.station = stFail ∧ origErr ≠ "" ∧ e.error_code ≠ "" ∧ e.error_code = origErr
      then false else true
    else if e.status = "pass" then
      if max maxPass (rankOfD so e.station) = maxFlow then
        tentative || decide (failRank ≤ max maxPass (rankOfD so e.station))
      else
        outcomeSpec stFail origErr failRank maxFlow so rest
          (tentative || decide (failRank ≤ max maxPass (rankOfD so e.station)))
          (max maxPass (rankOfD so e.station))
    else outcomeSpec stFail origErr failRank maxFlow so rest tentative maxPass

theorem ite_lt_eq_max (a b : Int) : (if a < b then b else a) = max a b := by
  rcases le_or_lt b a with h | h
  · rw [if_neg (not_lt.mpr h), max_eq_left h]
  · rw [if_pos h, max_eq_right (le_of_lt h)]

theorem ite_le_eq_or (c : Prop) [Decidable c] (s : Bool) :
    (if c then true else s) = (s || decide c) := by
  by_cases h : c
  · simp [h]
  · simp [h]

theorem evalGo_eq_outcomeSpec (rows : List Row) (stFail origErr : String)
    (failRank maxFlow : Int) (so : StationOrder) :
    ∀ fuel k s m, rows.length ≤ k + fuel →
      evalGo rows stFail origErr failRank maxFlow so fuel k s m =
        outcomeSpec stFail origErr failRank maxFlow so (rows.drop k) s m := by
  intro fuel
  induction fuel with
  | zero =>
    intro k s m h
    rw [List.drop_eq_nil_of_le (by omega)]
    rfl
  | succ n ih =>
    intro k s m h
    by_cases hk : k < rows.length
    · rw [List.drop_eq_getElem_cons hk]
      show (if h : k < rows.length then _ else _) = _
      rw [dif_pos hk]
      simp only [outcomeSpec]
      by_cases h1 : (rows[k]).station = "swap"
      · simp only [if_pos h1]
      · simp only [if_neg h1]
        by_cases h2 : (rows[k]).status = "fail"
        · simp only [if_pos h2]
        · simp only [if_neg h2]
          by_cases h3 : (rows[k]).status = "pass"
          · simp only [if_pos h3, ite_lt_eq_max, ite_le_eq_or]
            by_cases h4 : max m (rankOfD so (rows[k]).station) = maxFlow
            · simp only [if_pos h4]
            · simp only [if_neg h4]
              exact ih (k + 1) _ _ (by omega)
          · simp only [if_neg h3]
            exact ih (k + 1) s m (by omega)
    · rw [List.drop_eq_nil_of_le (by omega)]
      show (if h : k < rows.length then _ else _) = _
      rw [dif_neg hk]
      rfl

/-- Shared bridge: the embedded evaluator equals the specification sub-scan on
the suffix of events after the attributed repair event. -/
theorem evaluate_eq_outcomeSpec (attempt : RepairAttempt) (rows : List Row)
    (so : StationOrder) (maxFlow : Int) :
    evaluate_repair_attempt attempt rows so maxFlow =
      outcomeSpec attempt.failure.station attempt.failure.error_code
        attempt.failure.fail_rank maxFlow so
        (rows.drop (attempt.swap_index + 1)) false (-1) :=
  evalGo_eq_outcomeSpec rows _ _ _ _ so _ (attempt.swap_index + 1) false (-1)
    (by omega)

/-- C2: for every attempt, the evaluation of perf_logic._evaluate_repair_attempt
equals the specification's sub-scan over the events after the attributed repair
event: a same-station same-non-empty-code fail is an inefficiency and stops the
sub-scan discarding pass progress; any other fail is a success and stops the
sub-scan; a pass updates the running maximum passed flow rank, the attempt is
a success once that maximum reaches the original failure's flow rank, and the
sub-scan stops when the maximum equals the overall maximum flow rank; the next
repair-station event or the end of the unit's events stops the sub-scan with
the observed outcome, defaulting to not-success. -/
theorem evaluate_repair_attempt_spec (attempt : RepairAttempt) (rows : List Row)
    (so : StationOrder) (maxFlow : Int) :
    evaluate_repair_attempt attempt rows so maxFlow =
      outcomeSpec attempt.failure.station attempt.failure.error_code
        attempt.failure.fail_rank maxFlow so
        (rows.drop (attempt.swap_index + 1)) false (-1) :=
  evaluate_eq_outcomeSpec attempt rows so maxFlow

/-- The failure scan as amended: walk every position of the unit's event list
in order and collect a failure for every fail event at a positive-rank
station, regardless of where earlier failures' repair events sit. -/
def failuresSpec (sn : String) (so : StationOrder) : Nat → List Row → List FailureEvent
  | _, [] => []
  | i, r :: rest =>
    if r.status = "fail" ∧ 0 < rankOfD so r.station then
      ⟨sn, i, r.station, r.error_code, rankOfD so r.station⟩ ::
        failuresSpec sn so (i + 1) rest
    else failuresSpec sn so (i + 1) rest

theorem iterFailuresAux_eq_failuresSpec (sn : String) (rows : List Row)
    (so : StationOrder) :
    ∀ fuel i, rows.length ≤ i + fuel →
      iterFailuresAux sn rows so fuel i = failuresSpec sn so i (rows.drop i) := by
  intro fuel
  induction fuel with
  | zero =>
    intro i h
    rw [List.drop_eq_nil_of_le (by omega)]
    rfl
  | succ n ih =>
    intro i h
    by_cases hi : i < rows.length
    · rw [List.drop_eq_getElem_cons hi]
      show (if h : i < rows.length then _ else _) = _
      rw [dif_pos hi]
      simp only [failuresSpec]
      by_cases h1 : (rows[i]).status = "fail" ∧ 0 < rankOfD so (rows[i]).station
      · simp only [if_pos h1]
        rw [ih (i + 1) (by omega)]
      · simp only [if_neg h1]
        exact ih (i + 1) (by omega)
    · rw [List.drop_eq_nil_of_le (by omega)]
      show (if h : i < rows.length then _ else _) = _
      rw [dif_neg hi]
      rfl

/-- A three-row unit in which a second flow-station failure lies strictly
between the first failure (index 0) and its attributed repair event
(index 2). -/
def betweenRows : List Row := [
  ⟨"u", "fto", "fail", "e1", "1"⟩,
  ⟨"u", "runnin", "fail", "e2", "1"⟩,
  ⟨"u", "swap", "pass", "", "9"⟩]

/-- C3 counterexample: on betweenRows the attempt for the failure at index 0
is attributed to the repair event at index 2, yet the fail event at index 1 —
a flow-rank station strictly between the failure and its repair event — IS
detected as a further failure: the walk detects two failures, total_failures
is 2, and badge 9 records two attempts, where the claim would give one. -/
theorem failure_between_failure_and_repair_is_detected :
    (let df := normalize_frame betweenRows
     let so := infer_station_order df
     let fs := iter_failures_for_sn "u" df so
     fs.map (fun f => f.fail_index) = [0, 1] ∧
       fs.head?.bind
         (fun f => (find_repair_attempt f df).map (fun a => a.swap_index)) = some 2) ∧
    (compute_performance_from_df betweenRows none).2.fallas_totales = 2 ∧
    (findBadge (compute_performance_from_df betweenRows none).1 "9").map
      (fun r => r.intentos) = some 2 := by
  decide

/-- C3 amended: after an attempt is created for a failure, the outer scan for
further failures resumes immediately after the failure itself, not after the
attributed repair event: the failure iterator equals the full positional scan
that collects every fail event at a positive-rank station, so fail events
lying strictly between a failure and its attributed repair event are also
detected as failures of the unit. -/
theorem iter_failures_scans_every_position (sn : String) (rows : List Row)
    (so : StationOrder) :
    iter_failures_for_sn sn rows so = failuresSpec sn so 0 rows := by
  have h := iterFailuresAux_eq_failuresSpec sn rows so rows.length 0 (by omega)
  simpa using h

/-- C9: when the attributed repair event is the last event of the unit (no
events follow it), the sub-scan observes nothing and the attempt evaluates to
not-success (one inefficiency for the attributed badge); and this end-of-log
default coincides with the unresolved default when the very next event is
already the next repair-station event. -/
theorem attempt_at_end_of_log_defaults_to_inefficiency (attempt : RepairAttempt)
    (rows : List Row) (so : StationOrder) (maxFlow : Int) :
    (rows.length ≤ attempt.swap_index + 1 →
      evaluate_repair_attempt attempt rows so maxFlow = false) ∧
    (∀ r rest, rows.drop (attempt.swap_index + 1) = r :: rest →
      r.station = "swap" →
      evaluate_repair_attempt attempt rows so maxFlow = false) := by
  constructor
  · intro h
    rw [evaluate_eq_outcomeSpec, List.drop_eq_nil_of_le h]
    rfl
  · intro r rest hdrop hswap
    rw [evaluate_eq_outcomeSpec, hdrop]
    simp only [outcomeSpec, if_pos hswap]

/-- Witness for C9 at a concrete input: a one-row unit whose only swap event
is the last event. -/
theorem attempt_at_end_of_log_witness :
    evaluate_repair_attempt ⟨"9", ⟨"u", 0, "fto", "e", 1⟩, 0⟩
      [⟨"u", "swap", "pass", "", "9"⟩] [("fto", 1), ("swap", 0)] 1 = false :=
  (attempt_at_end_of_log_defaults_to_inefficiency _ _ _ _).1 (by decide)

theorem mem_addNew (acc : List String) (a x : String) :
    x ∈ addNew acc a ↔ x ∈ acc ∨ x = a := by
  unfold addNew
  by_cases h : a ∈ acc
  · rw [if_pos h]
    constructor
    · intro hx; exact Or.inl hx
    · rintro (hx | hx)
      · exact hx
      · exact hx ▸ h
  · rw [if_neg h]
    simp [List.mem_append]

theorem nodup_addNew (acc : List String) (a : String) (h : acc.Nodup) :
    (addNew acc a).Nodup := by
  unfold addNew
  by_cases ha : a ∈ acc
  · rw [if_pos ha]; exact h
  · rw [if_neg ha]
    rw [List.nodup_append]
    refine ⟨h, List.nodup_singleton a, ?_⟩
    intro x hx hx1
    rw [List.mem_singleton] at hx1
    exact ha (hx1 ▸ hx)

theorem mem_foldl_addNew (l : List String) :
    ∀ acc x, x ∈ l.foldl addNew acc ↔ x ∈ acc ∨ x ∈ l := by
  induction l with
  | nil => intro acc x; simp
  | cons a t ih =>
    intro acc x
    rw [List.foldl_cons, ih, mem_addNew, List.mem_cons]
    tauto

theorem nodup_foldl_addNew (l : List String) :
    ∀ acc, acc.Nodup → (l.foldl addNew acc).Nodup := by
  induction l with
  | nil => intro acc h; exact h
  | cons a t ih =>
    intro acc h
    exact ih (addNew acc a) (nodup_addNew acc a h)

theorem mem_dedupFold (l : List String) (x : String) :
    x ∈ dedupFold l ↔ x ∈ l := by
  unfold dedupFold
  rw [mem_foldl_addNew]
  simp

theorem nodup_dedupFold (l : List String) : (dedupFold l).Nodup :=
  nodup_foldl_addNew l [] List.nodup_nil

theorem sum_map_add_distrib (l : List α) (f g : α → ℕ) :
    (l.map fun a => f a + g a).sum = (l.map f).sum + (l.map g).sum := by
  induction l with
  | nil => simp
  | cons a t ih => simp [ih]; omega

theorem sum_indicator_zero (bs : List String) (x : String) (hx : x ∉ bs) :
    (bs.map (fun b => if x == b then 1 else 0)).sum = 0 := by
  induction bs with
  | nil => simp
  | cons b t ih =>
    have hxb : ¬(x == b) = true := by
      simp only [beq_iff_eq]
      intro h; exact hx (h ▸ List.mem_cons_self x t)
    have hxt : x ∉ t := fun h => hx (List.mem_cons_of_mem b h)
    simp only [List.map_cons, List.sum_cons, if_neg hxb, ih hxt]

theorem sum_indicator_one (bs : List String) (x : String) (hnd : bs.Nodup)
    (hx : x ∈ bs) : (bs.map (fun b => if x == b then 1 else 0)).sum = 1 := by
  induction bs with
  | nil => cases hx
  | cons b t ih =>
    rcases List.mem_cons.mp hx with h | h
    · subst h
      have hxt : x ∉ t := (List.nodup_cons.mp hnd).1
      simp only [List.map_cons, List.sum_cons, if_pos (beq_self_eq_true x),
        sum_indicator_zero t x hxt]
    · have hxb : ¬(x == b) = true := by
        simp only [beq_iff_eq]
        intro hxb
        exact (List.nodup_cons.mp hnd).1 (hxb ▸ h)
      simp only [List.map_cons, List.sum_cons, if_neg hxb,
        ih (List.nodup_cons.mp hnd).2 h]

theorem sum_countP_eq_length (l : List (String × Bool)) (bs : List String)
    (hnd : bs.Nodup) (hcov : ∀ r ∈ l, r.1 ∈ bs) :
    (bs.map (fun b => l.countP (fun r => r.1 == b))).sum = l.length := by
  induction l with
  | nil => simp
  | cons r t ih =>
    have step : ∀ b, (r :: t).countP (fun s => s.1 == b) =
        t.countP (fun s => s.1 == b) + if r.1 == b then 1 else 0 := by
      intro b; exact List.countP_cons _ _ _
    calc (bs.map (fun b => (r :: t).countP (fun s => s.1 == b))).sum
        = (bs.map (fun b => t.countP (fun s => s.1 == b) +
            if r.1 == b then 1 else 0)).sum := by
          refine congrArg _ (List.map_congr_left ?_)
          intro b _; exact step b
      _ = (bs.map (fun b => t.countP (fun s => s.1 == b))).sum +
            (bs.map (fun b => if r.1 == b then 1 else 0)).sum :=
          sum_map_add_distrib bs _ _
      _ = t.length + 1 := by
          rw [ih (fun s hs => hcov s (List.mem_cons_of_mem r hs)),
            sum_indicator_one bs r.1 hnd (hcov r (List.mem_cons_self r t))]
      _ = (r :: t).length := by simp

theorem sum_map_le_sum_map (l : List α) (f g : α → ℕ)
    (h : ∀ x ∈ l, f x ≤ g x) :
    (l.map f).sum ≤ (l.map g).sum ∧
      ((l.map f).sum = (l.map g).sum ↔ ∀ x ∈ l, f x = g x) := by
  induction l with
  | nil => simp
  | cons a t ih =>
    have ha := h a (List.mem_cons_self a t)
    have iht := ih (fun x hx => h x (List.mem_cons_of_mem a hx))
    simp only [List.map_cons, List.sum_cons]
    constructor
    · exact Nat.add_le_add ha iht.1
    · constructor
      · intro heq x hx
        have h1 : f a = g a ∧ (t.map f).sum = (t.map g).sum := by
          have := iht.1
          omega
        rcases List.mem_cons.mp hx with hx1 | hx1
        · exact hx1 ▸ h1.1
        · exact iht.2.mp h1.2 x hx1
      · intro hall
        rw [hall a (List.mem_cons_self a t),
          iht.2.mpr (fun x hx => hall x (List.mem_cons_of_mem a hx))]

/-- The length of the record list of one unit is the number of its detected
failures that find an attributed repair. -/
theorem unitRecords_length (sn : String) (rows : List Row) (so : StationOrder)
    (maxFlow : Int) :
    (unitRecords sn rows so maxFlow).length =
      (iter_failures_for_sn sn rows so).countP
        (fun f => (find_repair_attempt f rows).isSome) := by
  unfold unitRecords
  rw [List.length_filterMap_eq_countP]
  refine List.countP_congr ?_
  intro f _
  cases h : find_repair_attempt f rows <;> simp [h]

/-- Ends the aggregation chain: the sum of attempts over the scorecard is the
number of attempt records. -/
theorem sumAttempts_build (records : List (String × Bool)) (total : Nat) :
    sumAttempts (build_metrics_dataframe records total).1 = records.length := by
  unfold sumAttempts build_metrics_dataframe
  rw [((List.perm_insertionSort rowBeforeR _).map (fun r : MetricsRow => r.intentos)).sum_eq]
  rw [List.map_map]
  have hfun : ((fun r : MetricsRow => r.intentos) ∘
      metricsRowFor records (cargaEsperada total (dedupFold (records.map Prod.fst)).length)) =
      fun b => records.countP (fun r => r.1 == b) := rfl
  rw [hfun]
  exact sum_countP_eq_length records _ (nodup_dedupFold _)
    (fun r hr => (mem_dedupFold _ _).mpr (List.mem_map_of_mem Prod.fst hr))

/-- C4 amended: the sum of attempts over all badges of the scorecard never
exceeds total_failures, with equality exactly when every detected
flow-station failure finds an attributed repair, i.e. when the NEXT
repair-station event after the failure exists and carries a non-empty badge
(a failure whose next repair event has an empty badge is unattributed even if
a later repair event carries a badge). -/
theorem sum_attempts_le_total_failures (rows : List Row) (soOpt : Option StationOrder) :
    sumAttempts (compute_performance_from_df rows soOpt).1 ≤
      (compute_performance_from_df rows soOpt).2.fallas_totales ∧
    (sumAttempts (compute_performance_from_df rows soOpt).1 =
        (compute_performance_from_df rows soOpt).2.fallas_totales ↔
      ∀ g ∈ groupBySn (normalize_frame rows),
        ∀ f ∈ iter_failures_for_sn g.1 g.2 (resolveOrder (normalize_frame rows) soOpt),
          (find_repair_attempt f g.2).isSome) := by
  have hsum : sumAttempts (compute_performance_from_df rows soOpt).1 =
      ((groupBySn (normalize_frame rows)).map (fun g =>
        (unitRecords g.1 g.2 (resolveOrder (normalize_frame rows) soOpt)
          (maxFlowRank (resolveOrder (normalize_frame rows) soOpt))).length)).sum := by
    show sumAttempts (build_metrics_dataframe _ _).1 = _
    rw [sumAttempts_build, List.length_flatten, List.map_map]
    rfl
  have htot : (compute_performance_from_df rows soOpt).2.fallas_totales =
      ((groupBySn (normalize_frame rows)).map (fun g =>
        (iter_failures_for_sn g.1 g.2
          (resolveOrder (normalize_frame rows) soOpt)).length)).sum := rfl
  have hpt : ∀ g ∈ groupBySn (normalize_frame rows),
      (unitRecords g.1 g.2 (resolveOrder (normalize_frame rows) soOpt)
        (maxFlowRank (resolveOrder (normalize_frame rows) soOpt))).length ≤
      (iter_failures_for_sn g.1 g.2 (resolveOrder (normalize_frame rows) soOpt)).length := by
    intro g _
    rw [unitRecords_length]
    exact List.countP_le_length _
  obtain ⟨hle, hiff⟩ := sum_map_le_sum_map (groupBySn (normalize_frame rows)) _ _ hpt
  constructor
  · rw [hsum, htot]; exact hle
  · rw [hsum, htot, hiff]
    refine forall_congr' (fun g => forall_congr' (fun hg => ?_))
    rw [unitRecords_length]
    exact List.countP_eq_length

/-- Witness for C4 at a concrete input with one attributed failure. -/
theorem sum_attempts_le_total_failures_witness :
    sumAttempts (compute_performance_from_df
        [⟨"u", "fto", "fail", "e", "1"⟩, ⟨"u", "swap", "pass", "", "9"⟩] none).1 ≤
      (compute_performance_from_df
        [⟨"u", "fto", "fail", "e", "1"⟩, ⟨"u", "swap", "pass", "", "9"⟩] none).2.fallas_totales :=
  (sum_attempts_le_total_failures
    [⟨"u", "fto", "fail", "e", "1"⟩, ⟨"u", "swap", "pass", "", "9"⟩] none).1

/-- A unit whose only failure is followed first by an empty-badge repair
event and then by a badged one. -/
def emptyBadgeRows : List Row := [
  ⟨"u", "fto", "fail", "e", "1"⟩,
  ⟨"u", "swap", "pass", "", ""⟩,
  ⟨"u", "swap", "pass", "", "9"⟩]

/-- C4 counterexample: on emptyBadgeRows every detected failure has a
subsequent repair-station event carrying a non-empty badge (the second swap),
yet the sum of attempts (0) differs from total_failures (1), because the code
attributes a failure only through the FIRST subsequent repair event, whose
badge here is empty.  So equality does not hold exactly under the claim's
condition. -/
theorem empty_badge_then_badged_swap_counterexample :
    sumAttempts (compute_performance_from_df emptyBadgeRows none).1 ≠
      (compute_performance_from_df emptyBadgeRows none).2.fallas_totales ∧
    ∀ g ∈ groupBySn (normalize_frame emptyBadgeRows),
      ∀ f ∈ iter_failures_for_sn g.1 g.2
          (resolveOrder (normalize_frame emptyBadgeRows) none),
        ∃ r ∈ g.2.drop (f.fail_index + 1), r.station = "swap" ∧ r.badge ≠ "" := by
  decide

/-- C5: every scorecard row satisfies inefficiencies = attempts - successes,
inefficiencies at least 0, and successes at most attempts. -/
theorem scorecard_row_invariants (rows : List Row) (soOpt : Option StationOrder) :
    ∀ r ∈ (compute_performance_from_df rows soOpt).1,
      r.ineficiencias = (r.intentos : Int) - (r.exitos : Int) ∧
      0 ≤ r.ineficiencias ∧ r.exitos ≤ r.intentos := by
  intro r hr
  rw [show (compute_performance_from_df rows soOpt).1 =
    (build_metrics_dataframe ((groupBySn (normalize_frame rows)).map (fun g =>
        unitRecords g.1 g.2 (resolveOrder (normalize_frame rows) soOpt)
          (maxFlowRank (resolveOrder (normalize_frame rows) soOpt)))).flatten
      ((groupBySn (normalize_frame rows)).map (fun g =>
        (iter_failures_for_sn g.1 g.2
          (resolveOrder (normalize_frame rows) soOpt)).length)).sum).1 from rfl] at hr
  unfold build_metrics_dataframe at hr
  rw [(List.perm_insertionSort rowBeforeR _).mem_iff] at hr
  obtain ⟨b, _, rfl⟩ := List.mem_map.mp hr
  have hle : ∀ (recs : List (String × Bool)),
      recs.countP (fun s => s.1 == b && s.2) ≤ recs.countP (fun s => s.1 == b) := by
    intro recs
    refine List.countP_mono_left (fun x _ hx => ?_)
    rw [Bool.and_eq_true] at hx
    exact hx.1
  refine ⟨rfl, ?_, hle _⟩
  have := hle (((groupBySn (normalize_frame rows)).map (fun g =>
    unitRecords g.1 g.2 (resolveOrder (normalize_frame rows) soOpt)
      (maxFlowRank (resolveOrder (normalize_frame rows) soOpt)))).flatten)
  show 0 ≤ (_ : Int) - _
  omega

/-- Witness for C5: the single scorecard row of a one-failure input. -/
theorem scorecard_row_invariants_witness :
    ((⟨"9", 1, 0, 1, 0, 1, 1 / 2⟩ : MetricsRow).ineficiencias =
      ((⟨"9", 1, 0, 1, 0, 1, 1 / 2⟩ : MetricsRow).intentos : Int) -
        ((⟨"9", 1, 0, 1, 0, 1, 1 / 2⟩ : MetricsRow).exitos : Int)) ∧
      0 ≤ (⟨"9", 1, 0, 1, 0, 1, 1 / 2⟩ : MetricsRow).ineficiencias ∧
      (⟨"9", 1, 0, 1, 0, 1, 1 / 2⟩ : MetricsRow).exitos ≤
        (⟨"9", 1, 0, 1, 0, 1, 1 / 2⟩ : MetricsRow).intentos :=
  scorecard_row_invariants [⟨"u", "fto", "fail", "e", "1"⟩,
    ⟨"u", "swap", "pass", "", "9"⟩] none ⟨"9", 1, 0, 1, 0, 1, 1 / 2⟩ (by decide)

/-- Index of the first occurrence of a string in a list (the order of first
occurrence over the input rows). -/
def firstIdx : List String → String → Nat
  | [], _ => 0
  | a :: l, s => if a = s then 0 else firstIdx l s + 1

theorem firstIdx_lt_length (l : List String) (s : String) (h : s ∈ l) :
    firstIdx l s < l.length := by
  induction l with
  | nil => cases h
  | cons a t ih =>
    by_cases has : a = s
    · simp [firstIdx, has]
    · have hs : s ∈ t := by
        rcases List.mem_cons.mp h with h1 | h1
        · exact absurd h1.symm has
        · exact h1
      simp only [firstIdx, if_neg has, List.length_cons]
      exact Nat.succ_lt_succ (ih hs)

theorem getElem_firstIdx (l : List String) (s : String) (h : s ∈ l)
    (hlt : firstIdx l s < l.length) : l[firstIdx l s] = s := by
  induction l with
  | nil => cases h
  | cons a t ih =>
    by_cases has : a = s
    · simp [firstIdx, has]
    · have hs : s ∈ t := by
        rcases List.mem_cons.mp h with h1 | h1
        · exact absurd h1.symm has
        · exact h1
      have hlt2 : firstIdx t s < t.length := firstIdx_lt_length t s hs
      simp only [firstIdx, if_neg has, List.getElem_cons_succ]
      exact ih hs hlt2

theorem firstIdx_append_left (l₁ l₂ : List String) (s : String) (h : s ∈ l₁) :
    firstIdx (l₁ ++ l₂) s = firstIdx l₁ s := by
  induction l₁ with
  | nil => cases h
  | cons a t ih =>
    by_cases has : a = s
    · simp [firstIdx, has]
    · have hs : s ∈ t := by
        rcases List.mem_cons.mp h with h1 | h1
        · exact absurd h1.symm has
        · exact h1
      simp only [List.cons_append, firstIdx, if_neg has, List.append_eq, ih hs]

theorem firstIdx_append_right (l₁ l₂ : List String) (s : String) (h : s ∉ l₁) :
    firstIdx (l₁ ++ l₂) s = l₁.length + firstIdx l₂ s := by
  induction l₁ with
  | nil => simp [firstIdx]
  | cons a t ih =>
    have has : ¬(a = s) := fun hh => h (hh ▸ List.mem_cons_self a t)
    have hs : s ∉ t := fun hh => h (List.mem_cons_of_mem a hh)
    simp only [List.cons_append, firstIdx, if_neg has, List.append_eq, ih hs,
      List.length_cons]
    omega

theorem firstIdx_inj (l : List String) (s t : String) (hs : s ∈ l) (ht : t ∈ l)
    (h : firstIdx l s = firstIdx l t) : s = t := by
  induction l with
  | nil => cases hs
  | cons a u ih =>
    by_cases has : a = s <;> by_cases hat : a = t
    · exact has ▸ hat
    · rw [firstIdx, firstIdx, if_pos has, if_neg hat] at h
      omega
    · rw [firstIdx, firstIdx, if_neg has, if_pos hat] at h
      omega
    · rw [firstIdx, firstIdx, if_neg has, if_neg hat] at h
      have hs2 : s ∈ u := by
        rcases List.mem_cons.mp hs with h1 | h1
        · exact absurd h1.symm has
        · exact h1
      have ht2 : t ∈ u := by
        rcases List.mem_cons.mp ht with h1 | h1
        · exact absurd h1.symm hat
        · exact h1
      exact ih hs2 ht2 (by omega)

theorem seenFold_invariant (l : List String) :
    ∀ acc pre,
      (∀ x, x ∈ acc ↔ (x ∈ pre ∧ x ≠ "swap")) →
      acc.Nodup →
      acc.Pairwise (fun s t => firstIdx pre s < firstIdx pre t) →
      (∀ x, x ∈ l.foldl (fun acc st => if st = "swap" then acc else addNew acc st) acc ↔
          ((x ∈ pre ∨ x ∈ l) ∧ x ≠ "swap")) ∧
      (l.foldl (fun acc st => if st = "swap" then acc else addNew acc st) acc).Nodup ∧
      (l.foldl (fun acc st => if st = "swap" then acc else addNew acc st) acc).Pairwise
        (fun s t => firstIdx (pre ++ l) s < firstIdx (pre ++ l) t) := by
  induction l with
  | nil =>
    intro acc pre hmem hnd hpw
    rw [List.foldl_nil]
    refine ⟨?_, hnd, ?_⟩
    · intro x; rw [hmem x]; simp
    · rw [List.append_nil]; exact hpw
  | cons a t ih =>
    intro acc pre hmem hnd hpw
    rw [List.foldl_cons]
    have htransfer : ∀ m : List String, (∀ x, x ∈ m → x ∈ pre) →
        m.Pairwise (fun s t => firstIdx pre s < firstIdx pre t) →
        m.Pairwise (fun s t => firstIdx (pre ++ [a]) s < firstIdx (pre ++ [a]) t) := by
      intro m hsub hmpw
      refine hmpw.imp_of_mem ?_
      intro x y hx hy hxy
      rw [firstIdx_append_left pre [a] x (hsub x hx),
        firstIdx_append_left pre [a] y (hsub y hy)]
      exact hxy
    have key : (∀ x, x ∈ (if a = "swap" then acc else addNew acc a) ↔
        (x ∈ pre ++ [a] ∧ x ≠ "swap")) ∧
        (if a = "swap" then acc else addNew acc a).Nodup ∧
        (if a = "swap" then acc else addNew acc a).Pairwise
          (fun s t => firstIdx (pre ++ [a]) s < firstIdx (pre ++ [a]) t) := by
      by_cases ha : a = "swap"
      · rw [if_pos ha]
        refine ⟨?_, hnd, ?_⟩
        · intro x
          rw [hmem x, List.mem_append, List.mem_singleton]
          constructor
          · rintro ⟨h1, h2⟩; exact ⟨Or.inl h1, h2⟩
          · rintro ⟨h1 | h1, h2⟩
            · exact ⟨h1, h2⟩
            · exact absurd (h1.trans ha) h2
        · exact htransfer acc (fun x hx => ((hmem x).mp hx).1) hpw
      · rw [if_neg ha]
        refine ⟨?_, nodup_addNew acc a hnd, ?_⟩
        · intro x
          rw [mem_addNew, hmem x, List.mem_append, List.mem_singleton]
          constructor
          · rintro (⟨h1, h2⟩ | h1)
            · exact ⟨Or.inl h1, h2⟩
            · exact ⟨Or.inr h1, h1 ▸ ha⟩
          · rintro ⟨h1 | h1, h2⟩
            · exact Or.inl ⟨h1, h2⟩
            · exact Or.inr h1
        · unfold addNew
          by_cases hain : a ∈ acc
          · rw [if_pos hain]
            exact htransfer acc (fun x hx => ((hmem x).mp hx).1) hpw
          · rw [if_neg hain]
            rw [List.pairwise_append]
            refine ⟨htransfer acc (fun x hx => ((hmem x).mp hx).1) hpw,
              List.pairwise_singleton _ a, ?_⟩
            intro x hx y hy
            rw [List.mem_singleton] at hy
            rw [hy]
            have hxpre : x ∈ pre := ((hmem x).mp hx).1
            have hapre : a ∉ pre := fun hp => hain ((hmem a).mpr ⟨hp, ha⟩)
            rw [firstIdx_append_left pre [a] x hxpre,
              firstIdx_append_right pre [a] a hapre]
            have : firstIdx pre x < pre.length := firstIdx_lt_length pre x hxpre
            simp [firstIdx]
            omega
    obtain ⟨k1, k2, k3⟩ := key
    obtain ⟨m1, m2, m3⟩ := ih (if a = "swap" then acc else addNew acc a) (pre ++ [a]) k1 k2 k3
    have happ : (pre ++ [a]) ++ t = pre ++ a :: t := by
      rw [List.append_assoc, List.singleton_append]
    refine ⟨?_, m2, ?_⟩
    · intro x
      rw [m1 x, List.mem_append, List.mem_singleton, List.mem_cons]
      tauto
    · rw [← happ]; exact m3

theorem mem_seenFold (l : List String) (x : String) :
    x ∈ seenFold l ↔ (x ∈ l ∧ x ≠ "swap") := by
  have h := (seenFold_invariant l [] [] (by simp) List.nodup_nil List.Pairwise.nil).1 x
  unfold seenFold
  rw [h]
  simp

theorem nodup_seenFold (l : List String) : (seenFold l).Nodup :=
  (seenFold_invariant l [] [] (by simp) List.nodup_nil List.Pairwise.nil).2.1

theorem pairwise_seenFold (l : List String) :
    (seenFold l).Pairwise (fun s t => firstIdx l s < firstIdx l t) := by
  have h := (seenFold_invariant l [] [] (by simp) List.nodup_nil List.Pairwise.nil).2.2
  rw [List.nil_append] at h
  exact h

theorem seen_order_preserved (l : List String) (s t : String)
    (hs : s ∈ seenFold l) (ht : t ∈ seenFold l)
    (h : firstIdx (seenFold l) s < firstIdx (seenFold l) t) :
    firstIdx l s < firstIdx l t := by
  have hp := (List.pairwise_iff_getElem.mp (pairwise_seenFold l))
    (firstIdx (seenFold l) s) (firstIdx (seenFold l) t)
    (firstIdx_lt_length _ s hs) (firstIdx_lt_length _ t ht) h
  rwa [getElem_firstIdx _ s hs (firstIdx_lt_length _ s hs),
    getElem_firstIdx _ t ht (firstIdx_lt_length _ t ht)] at hp

theorem lookupRank_nil (s : String) : lookupRank [] s = none := rfl

theorem lookupRank_cons (p : String × Int) (so : StationOrder) (s : String) :
    lookupRank (p :: so) s = if p.1 = s then some p.2 else lookupRank so s := by
  unfold lookupRank
  by_cases h : p.1 = s
  · rw [List.find?_cons_of_pos _ (by simp [h]), if_pos h]
    rfl
  · rw [List.find?_cons_of_neg _ (by simp [h]), if_neg h]

theorem lookupRank_ranksFrom_mem (l : List String) :
    ∀ (i : Nat) (rest : StationOrder) (s : String), s ∈ l →
      lookupRank (ranksFrom i l ++ rest) s =
        some ((i : Int) + (firstIdx l s : Int)) := by
  induction l with
  | nil => intro i rest s h; cases h
  | cons a t ih =>
    intro i rest s h
    rw [ranksFrom, List.cons_append, lookupRank_cons]
    by_cases has : a = s
    · rw [if_pos has]
      simp [firstIdx, has]
    · rw [if_neg has]
      have hs : s ∈ t := by
        rcases List.mem_cons.mp h with h1 | h1
        · exact absurd h1.symm has
        · exact h1
      rw [ih (i + 1) rest s hs]
      congr 1
      simp only [firstIdx, if_neg has]
      push_cast
      omega

theorem lookupRank_ranksFrom_not_mem (l : List String) :
    ∀ (i : Nat) (rest : StationOrder) (s : String), s ∉ l →
      lookupRank (ranksFrom i l ++ rest) s = lookupRank rest s := by
  induction l with
  | nil => intro i rest s _; rw [ranksFrom, List.nil_append]
  | cons a t ih =>
    intro i rest s h
    have has : ¬(a = s) := fun hh => h (hh ▸ List.mem_cons_self a t)
    have hs : s ∉ t := fun hh => h (List.mem_cons_of_mem a hh)
    rw [ranksFrom, List.cons_append, lookupRank_cons, if_neg has, ih (i + 1) rest s hs]

theorem seenFold_length_eq_dedup (l : List String) :
    (seenFold l).length = ((l.filter (fun s => !(s == "swap"))).dedup).length := by
  refine List.Perm.length_eq ?_
  refine List.perm_of_nodup_nodup_toFinset_eq (nodup_seenFold l)
    (List.nodup_dedup _) ?_
  ext x
  simp only [List.mem_toFinset, List.mem_dedup, mem_seenFold, List.mem_filter,
    Bool.not_eq_eq_eq_not, Bool.not_true, beq_eq_false_iff_ne, ne_eq]

/-- Positive-rank lookups in the inferred order come from the seen list, with
rank one plus the first-occurrence index within that list. -/
theorem lookup_pos_mem_seen (rows : List Row) (s : String) (r : Int)
    (h : lookupRank (infer_station_order rows) s = some r) (hpos : 0 < r) :
    s ∈ seenFold (rows.map (fun x => x.station)) ∧
      r = 1 + (firstIdx (seenFold (rows.map (fun x => x.station))) s : Int) := by
  by_cases hs : s ∈ seenFold (rows.map (fun x => x.station))
  · have hl := lookupRank_ranksFrom_mem (seenFold (rows.map (fun x => x.station))) 1
      (if (rows.map (fun x => x.station)).contains "swap" = true
        then [("swap", (0 : Int))] else []) s hs
    rw [infer_station_order] at h
    rw [hl] at h
    exact ⟨hs, by injection h.symm⟩
  · exfalso
    rw [infer_station_order, lookupRank_ranksFrom_not_mem _ 1 _ s hs] at h
    by_cases hc : (rows.map (fun x => x.station)).contains "swap"
    · rw [if_pos hc, lookupRank_cons] at h
      by_cases hss : "swap" = s
      · rw [if_pos hss] at h
        injection h with h
        omega
      · rw [if_neg hss] at h
        exact Option.noConfusion h
    · rw [if_neg hc] at h
      exact Option.noConfusion h

/-- C6: the inferred station rank map assigns the repair station swap rank 0
exactly when swap appears in the input; it assigns every other distinct
station a rank, the positive ranks lie in 1..N for N the number of distinct
non-swap stations, positive ranks are strictly increasing in the order of
first occurrence over the input rows, and inferring the map twice from the
same input in the same row order yields an identical map. -/
theorem infer_station_order_spec (rows : List Row) :
    (lookupRank (infer_station_order rows) "swap" =
        if "swap" ∈ rows.map (fun x => x.station) then some 0 else none) ∧
    (∀ s, s ≠ "swap" →
        ((lookupRank (infer_station_order rows) s).isSome ↔
          s ∈ rows.map (fun x => x.station))) ∧
    (∀ s r, lookupRank (infer_station_order rows) s = some r → 0 < r →
        1 ≤ r ∧ r ≤ (((rows.map (fun x => x.station)).filter
          (fun s => !(s == "swap"))).dedup).length) ∧
    (∀ s t rs rt, lookupRank (infer_station_order rows) s = some rs →
        lookupRank (infer_station_order rows) t = some rt → 0 < rs → 0 < rt →
        (rs < rt ↔ firstIdx (rows.map (fun x => x.station)) s <
          firstIdx (rows.map (fun x => x.station)) t)) ∧
    infer_station_order rows = infer_station_order rows := by
  have hswapnot : "swap" ∉ seenFold (rows.map (fun x => x.station)) :=
    fun hmem => ((mem_seenFold _ _).mp hmem).2 rfl
  refine ⟨?_, ?_, ?_, ?_, rfl⟩
  · rw [infer_station_order, lookupRank_ranksFrom_not_mem _ 1 _ _ hswapnot]
    by_cases hc : "swap" ∈ rows.map (fun x => x.station)
    · have hcc : ((rows.map (fun x => x.station)).contains "swap") = true :=
        List.elem_iff.mpr hc
      rw [if_pos hcc, if_pos hc, lookupRank_cons, if_pos rfl]
    · have hcc : ¬(((rows.map (fun x => x.station)).contains "swap") = true) :=
        fun hcc => hc (List.elem_iff.mp hcc)
      rw [if_neg hcc, if_neg hc, lookupRank_nil]
  · intro s hne
    by_cases hs : s ∈ rows.map (fun x => x.station)
    · have hseen : s ∈ seenFold (rows.map (fun x => x.station)) :=
        (mem_seenFold _ _).mpr ⟨hs, hne⟩
      rw [infer_station_order, lookupRank_ranksFrom_mem _ 1 _ s hseen]
      simp [hs]
    · have hseen : s ∉ seenFold (rows.map (fun x => x.station)) :=
        fun hmem => hs ((mem_seenFold _ _).mp hmem).1
      rw [infer_station_order, lookupRank_ranksFrom_not_mem _ 1 _ s hseen]
      by_cases hc : ((rows.map (fun x => x.station)).contains "swap") = true
      · rw [if_pos hc, lookupRank_cons, if_neg (fun hh => hne hh.symm)]
        simp [lookupRank_nil, hs]
      · rw [if_neg hc]
        simp [lookupRank_nil, hs]
  · intro s r hlk hpos
    obtain ⟨hseen, hr⟩ := lookup_pos_mem_seen rows s r hlk hpos
    have hidx : firstIdx (seenFold (rows.map (fun x => x.station))) s <
        (seenFold (rows.map (fun x => x.station))).length :=
      firstIdx_lt_length _ s hseen
    rw [← seenFold_length_eq_dedup]
    omega
  · intro s t rs rt hls hlt hps hpt
    obtain ⟨hsseen, hrs⟩ := lookup_pos_mem_seen rows s rs hls hps
    obtain ⟨htseen, hrt⟩ := lookup_pos_mem_seen rows t rt hlt hpt
    have hiff1 : rs < rt ↔
        firstIdx (seenFold (rows.map (fun x => x.station))) s <
          firstIdx (seenFold (rows.map (fun x => x.station))) t := by
      rw [hrs, hrt]
      constructor <;> intro <;> omega
    rw [hiff1]
    constructor
    · exact seen_order_preserved _ s t hsseen htseen
    · intro hst
      rcases Nat.lt_trichotomy
          (firstIdx (seenFold (rows.map (fun x => x.station))) s)
          (firstIdx (seenFold (rows.map (fun x => x.station))) t) with h | h | h
      · exact h
      · exfalso
        have heq : s = t := firstIdx_inj _ s t hsseen htseen h
        rw [heq] at hst
        exact Nat.lt_irrefl _ hst
      · exfalso
        have := seen_order_preserved _ t s htseen hsseen h
        omega

/-- Witness for C6 on the sample fixture: the rank of fto is positive and
bounded by the number of distinct non-swap stations. -/
theorem infer_station_order_spec_witness :
    1 ≤ (1 : Int) ∧ (1 : Int) ≤
      (((sampleRows.map (fun x => x.station)).filter
        (fun s => !(s == "swap"))).dedup).length :=
  (infer_station_order_spec sampleRows).2.2.1 "fto" 1 (by decide) (by decide)

theorem rowBeforeR_iff (a b : MetricsRow) : rowBeforeR a b ↔
    (b.score < a.score ∨ (b.score = a.score ∧
      (b.exitos < a.exitos ∨ (b.exitos = a.exitos ∧ b.intentos ≤ a.intentos)))) := by
  unfold rowBeforeR rowBefore
  exact decide_eq_true_iff

instance : IsTotal MetricsRow rowBeforeR := by
  refine ⟨fun a b => ?_⟩
  rw [rowBeforeR_iff, rowBeforeR_iff]
  by_cases h1 : a.score = b.score
  · by_cases h2 : a.exitos = b.exitos
    · rcases Nat.le_total b.intentos a.intentos with h3 | h3
      · exact Or.inl (Or.inr ⟨h1.symm, Or.inr ⟨h2.symm, h3⟩⟩)
      · exact Or.inr (Or.inr ⟨h1, Or.inr ⟨h2, h3⟩⟩)
    · rcases Ne.lt_or_lt h2 with h3 | h3
      · exact Or.inr (Or.inr ⟨h1, Or.inl h3⟩)
      · exact Or.inl (Or.inr ⟨h1.symm, Or.inl h3⟩)
  · rcases Ne.lt_or_lt h1 with h3 | h3
    · exact Or.inr (Or.inl h3)
    · exact Or.inl (Or.inl h3)

instance : IsTrans MetricsRow rowBeforeR := by
  refine ⟨fun a b c hab hbc => ?_⟩
  rw [rowBeforeR_iff] at hab hbc ⊢
  rcases hab with h | ⟨heq, h⟩ <;> rcases hbc with g | ⟨geq, g⟩
  · exact Or.inl (lt_trans g h)
  · exact Or.inl (by rw [geq]; exact h)
  · exact Or.inl (by rw [← heq]; exact g)
  · refine Or.inr ⟨geq.trans heq, ?_⟩
    rcases h with h2 | ⟨he2, h2⟩ <;> rcases g with g2 | ⟨ge2, g2⟩
    · exact Or.inl (lt_trans g2 h2)
    · exact Or.inl (by rw [ge2]; exact h2)
    · exact Or.inl (by rw [← he2]; exact g2)
    · exact Or.inr ⟨ge2.trans he2, le_trans g2 h2⟩

theorem dedupFold_length_eq_dedup (l : List String) :
    (dedupFold l).length = (l.dedup).length := by
  refine List.Perm.length_eq ?_
  refine List.perm_of_nodup_nodup_toFinset_eq (nodup_dedupFold l)
    (List.nodup_dedup _) ?_
  ext x
  simp [List.mem_toFinset, List.mem_dedup, mem_dedupFold]

/-- C7: every scorecard row carries efficiency = round(successes/attempts ×
100, 2), relative load = round(attempts / expected_load, 3) (0 when the
expected load is 0) and score = round(successes + 0.5 × relative_load, 3);
the metadata expected load is total_failures divided by the number of
distinct badges (0 when there are none); and the scorecard is sorted
descending by (score, successes, attempts), so re-sorting it by that triple
is a no-op. -/
theorem build_metrics_dataframe_spec (records : List (String × Bool)) (total : Nat) :
    (∀ r ∈ (build_metrics_dataframe records total).1,
      r.eficiencia_pct = pround ((r.exitos : ℚ) / (r.intentos : ℚ) * 100) 2 ∧
      r.carga_relativa =
        (if (build_metrics_dataframe records total).2.carga_esperada = 0 then 0
         else pround ((r.intentos : ℚ) /
           (build_metrics_dataframe records total).2.carga_esperada) 3) ∧
      r.score = pround ((r.exitos : ℚ) + (1 / 2) * r.carga_relativa) 3) ∧
    ((build_metrics_dataframe records total).2.carga_esperada =
      if ((records.map Prod.fst).dedup).length = 0 then 0
      else (total : ℚ) / (((records.map Prod.fst).dedup).length : ℚ)) ∧
    (build_metrics_dataframe records total).1.Sorted rowBeforeR ∧
    List.insertionSort rowBeforeR (build_metrics_dataframe records total).1 =
      (build_metrics_dataframe records total).1 := by
  have hsorted : (build_metrics_dataframe records total).1.Sorted rowBeforeR :=
    List.sorted_insertionSort rowBeforeR _
  refine ⟨?_, ?_, hsorted, hsorted.insertionSort_eq⟩
  · intro r hr
    rw [show (build_metrics_dataframe records total).1 =
      List.insertionSort rowBeforeR ((dedupFold (records.map Prod.fst)).map
        (metricsRowFor records
          (cargaEsperada total (dedupFold (records.map Prod.fst)).length)))
      from rfl] at hr
    rw [(List.perm_insertionSort rowBeforeR _).mem_iff] at hr
    obtain ⟨b, hb, rfl⟩ := List.mem_map.mp hr
    obtain ⟨rec, hrec, hb1⟩ :=
      List.mem_map.mp ((mem_dedupFold _ _).mp hb)
    have hpos : 0 < records.countP (fun s => s.1 == b) :=
      List.countP_pos_iff.mpr ⟨rec, hrec, by simp [hb1]⟩
    refine ⟨?_, rfl, rfl⟩
    show (if records.countP (fun s => s.1 == b) = 0 then (0 : ℚ)
      else pround ((records.countP (fun s => s.1 == b && s.2) : ℚ) /
        (records.countP (fun s => s.1 == b) : ℚ) * 100) 2) = _
    rw [if_neg (by omega)]
    rfl
  · show cargaEsperada total (dedupFold (records.map Prod.fst)).length = _
    rw [cargaEsperada, dedupFold_length_eq_dedup]

/-- Witness for C7: the single row of a one-record aggregation satisfies the
row formulas. -/
theorem build_metrics_dataframe_spec_witness :
    (⟨"9", 1, 1, 0, 100, 1, 3 / 2⟩ : MetricsRow).eficiencia_pct =
      pround (((⟨"9", 1, 1, 0, 100, 1, 3 / 2⟩ : MetricsRow).exitos : ℚ) /
        ((⟨"9", 1, 1, 0, 100, 1, 3 / 2⟩ : MetricsRow).intentos : ℚ) * 100) 2 ∧
    (⟨"9", 1, 1, 0, 100, 1, 3 / 2⟩ : MetricsRow).carga_relativa =
      (if (build_metrics_dataframe [("9", true)] 1).2.carga_esperada = 0 then 0
       else pround (((⟨"9", 1, 1, 0, 100, 1, 3 / 2⟩ : MetricsRow).intentos : ℚ) /
         (build_metrics_dataframe [("9", true)] 1).2.carga_esperada) 3) ∧
    (⟨"9", 1, 1, 0, 100, 1, 3 / 2⟩ : MetricsRow).score =
      pround (((⟨"9", 1, 1, 0, 100, 1, 3 / 2⟩ : MetricsRow).exitos : ℚ) +
        (1 / 2) * (⟨"9", 1, 1, 0, 100, 1, 3 / 2⟩ : MetricsRow).carga_relativa) 3 :=
  (build_metrics_dataframe_spec [("9", true)] 1).1 ⟨"9", 1, 1, 0, 100, 1, 3 / 2⟩
    (by decide)

/-- C10: normalization strips surrounding whitespace from and lowercases the
error_code column, as it does station and status; consequently the whole
pipeline — in particular the inefficiency rule's comparison of a recurrence's
error code with the original failure's error code — cannot distinguish two
inputs whose error codes differ only in letter case or surrounding
whitespace. -/
theorem error_code_normalized_and_insensitive :
    (∀ r : Row, normalizeRow r =
      ⟨r.sn, pyLower (pyStrip r.station), pyLower (pyStrip r.status),
        pyLower (pyStrip r.error_code), r.badge⟩) ∧
    (∀ (rows rows' : List Row) (soOpt : Option StationOrder),
      List.Forall₂ (fun r r' : Row => r.sn = r'.sn ∧ r.station = r'.station ∧
        r.status = r'.status ∧ r.badge = r'.badge ∧
        pyLower (pyStrip r.error_code) = pyLower (pyStrip r'.error_code)) rows rows' →
      compute_performance_from_df rows soOpt =
        compute_performance_from_df rows' soOpt) := by
  refine ⟨fun r => rfl, ?_⟩
  intro rows rows' soOpt hvar
  have hnorm : normalize_frame rows = normalize_frame rows' := by
    induction hvar with
    | nil => rfl
    | cons h1 h2 ih =>
      obtain ⟨hsn, hst, hss, hbg, hec⟩ := h1
      unfold normalize_frame at ih ⊢
      rw [List.map_cons, List.map_cons, ih]
      congr 1
      unfold normalizeRow
      rw [Row.mk.injEq]
      exact ⟨hsn, by rw [hst], by rw [hss], hec, hbg⟩
  rw [compute_performance_from_df, compute_performance_from_df, hnorm]

/-- Witness for C10: two inputs whose error codes differ only by case and
surrounding whitespace produce identical scorecards and metadata. -/
theorem error_code_insensitive_witness :
    compute_performance_from_df [⟨"u", "fto", "fail", " E1 ", "1"⟩,
        ⟨"u", "swap", "pass", "", "9"⟩, ⟨"u", "fto", "fail", "e1", "7"⟩] none =
      compute_performance_from_df [⟨"u", "fto", "fail", "e1", "1"⟩,
        ⟨"u", "swap", "pass", "", "9"⟩, ⟨"u", "fto", "fail", " E1", "7"⟩] none :=
  error_code_normalized_and_insensitive.2 _ _ none
    (List.Forall₂.cons (by refine ⟨rfl, rfl, rfl, rfl, ?_⟩; decide)
      (List.Forall₂.cons (by refine ⟨rfl, rfl, rfl, rfl, ?_⟩; decide)
        (List.Forall₂.cons (by refine ⟨rfl, rfl, rfl, rfl, ?_⟩; decide)
          List.Forall₂.nil)))

end TechPerf
